import Mathlib

/-!
Verification of the crunch atlas-packer core, a shallow embedding of
`src/crunch/packer.cpp`.

Modelling conventions:
* C++ `int` values (coordinates, sizes, pads, the tight bounds `ww`/`hh`)
  are embedded as `Int`.  Lean's `Int` division is floor division, which
  agrees with C++ truncating division on the nonnegative operands that
  occur in the halving loops (the theorems carry the nonnegativity
  hypotheses that make this exact).
* `MaxRectsBinPack` is an external collaborator (its sources are not part
  of this repository's core); `Pack` is therefore parametrised over an
  abstract bin state `β`, an initial-state constructor, and an
  `insert : β → Int → Int → Bool → β × Rect` step standing for
  `MaxRectsBinPack::Insert(w, h, allowRotate, RectBestShortSideFit)`
  (the heuristic argument is a constant at the single call site and is
  dropped).  `Bitmap::Equals` (pixel comparison, declared outside this
  file's sources) is likewise an abstract parameter `equals`.
* `std::vector::push_back` order is kept: Lean lists grow at the right,
  `l ++ [x]`, and index `i` of the vector is index `i` of the list.
  The input vector is consumed from the back (`bitmaps.back()` /
  `pop_back`), so the *head* of the Lean input list plays the role of
  the vector's back.
* `std::unordered_map<size_t, int> dupLookup` is an association list
  with `operator[]`-assignment semantics (insert-or-assign).
* Console output (`verbose` logging, the `cerr` skip diagnostic) has no
  bearing on the claims and is not modelled; the `verbose` parameter is
  kept for signature fidelity.
-/

namespace Crunch

/-- A loaded bitmap as used by `Packer` (fields read in packer.cpp:
name, width, height, frameX/Y/W/H, hashValue, and pixel data compared
by `Bitmap::Equals`). Pixel data is abstracted to a list of values. -/
structure Bitmap where
  name : String
  width : Int
  height : Int
  frameX : Int := 0
  frameY : Int := 0
  frameW : Int := 0
  frameH : Int := 0
  hashValue : Nat := 0
  data : List Nat := []
deriving Repr, DecidableEq, Inhabited

/-- The rectangle returned by `MaxRectsBinPack::Insert`. -/
structure Rect where
  x : Int
  y : Int
  width : Int
  height : Int
deriving Repr, DecidableEq, Inhabited

/-- The per-placement record `Point` (fields written in `Packer::Pack`). -/
structure Point where
  x : Int
  y : Int
  dupID : Int
  rot : Bool
deriving Repr, DecidableEq, Inhabited

/-- `dupLookup.find(h)`: first binding of key `h`, if any. -/
def lookupHash : List (Nat × Nat) → Nat → Option Nat
  | [], _ => none
  | e :: rest, h => if e.1 = h then some e.2 else lookupHash rest h

/-- `dupLookup[h] = v`: insert-or-assign (replaces the binding of `h`
when present, appends it otherwise). -/
def assignHash : List (Nat × Nat) → Nat → Nat → List (Nat × Nat)
  | [], h, v => [(h, v)]
  | e :: rest, h, v =>
      if e.1 = h then (h, v) :: rest else e :: assignHash rest h v

/-- The mutable state of one `Packer::Pack` run: the abstract bin, the
member vectors `bitmaps`/`points`, `dupLookup`, the running tight bounds
`ww`/`hh`, and an instrumentation counter of `Insert` calls. -/
structure PackState (β : Type) where
  bin : β
  bitmaps : List Bitmap
  points : List Point
  dupLookup : List (Nat × Nat)
  ww : Int
  hh : Int
  inserts : Nat
deriving Repr, DecidableEq

/-- The duplicate test of packer.cpp lines 57-60: with `unique` on, a
`dupLookup` hit whose stored index passes `bitmap->Equals` against the
already-packed bitmap at that index. -/
def dupHit (equals : Bitmap → Bitmap → Bool) (unique : Bool)
    (st : PackState β) (b : Bitmap) : Option Nat :=
  if unique then
    match lookupHash st.dupLookup b.hashValue with
    | some di =>
        if equals b (st.bitmaps.getD di default) then some di else none
    | none => none
  else none

/-- Duplicate branch (lines 62-66): clone the placement at index `di`,
overwrite its `dupID`, append record and bitmap.  The bin, `ww`, `hh`,
`dupLookup` and the insert counter are untouched. -/
def dupAppend (st : PackState β) (b : Bitmap) (di : Nat) : PackState β :=
  { st with
    points := st.points ++ [{ st.points.getD di default with dupID := (di : Int) }],
    bitmaps := st.bitmaps ++ [b] }

/-- Successful placement branch (lines 78-93): register the hash (when
`unique`) at the pre-append record index, append the placement record
with the rotation inference `rotate && width != rect.width - pad`, and
extend the tight bounds. -/
def placeAppend (st : PackState β) (b : Bitmap) (unique rotate : Bool)
    (pad : Int) (bin2 : β) (rect : Rect) : PackState β :=
  { st with
    bin := bin2,
    inserts := st.inserts + 1,
    dupLookup :=
      if unique then assignHash st.dupLookup b.hashValue st.points.length
      else st.dupLookup,
    points := st.points ++
      [{ x := rect.x, y := rect.y, dupID := -1,
         rot := rotate && (b.width != rect.width - pad) }],
    bitmaps := st.bitmaps ++ [b],
    ww := max (rect.x + rect.width) st.ww,
    hh := max (rect.y + rect.height) st.hh }

/-- The `while (!bitmaps.empty())` loop of `Packer::Pack` (lines 49-95).
Returns the final state and the unconsumed remainder of the input list
(`break` on a zero-size rectangle leaves the current item in place). -/
def packLoop (insert : β → Int → Int → Bool → β × Rect)
    (equals : Bitmap → Bitmap → Bool) (pad : Int) (unique rotate : Bool) :
    PackState β → List Bitmap → PackState β × List Bitmap
  | st, [] => (st, [])
  | st, b :: rest =>
    match dupHit equals unique st b with
    | some di =>
        packLoop insert equals pad unique rotate (dupAppend st b di) rest
    | none =>
        let res := insert st.bin (b.width + pad) (b.height + pad) rotate
        if res.2.width = 0 ∨ res.2.height = 0 then
          ({ st with bin := res.1, inserts := st.inserts + 1 }, b :: rest)
        else
          packLoop insert equals pad unique rotate
            (placeAppend st b unique rotate pad res.1 res.2) rest

/-- The post-loop halving loop `while (width / 2 >= ww) width /= 2`
(lines 97-100), with explicit fuel: `none` means the fuel ran out before
the loop condition failed (the C++ loop does not terminate when the
bound is `≤ 0`). -/
def shrinkFuel : Nat → Int → Int → Option Int
  | 0, w, bound => if bound ≤ w / 2 then none else some w
  | n + 1, w, bound =>
      if bound ≤ w / 2 then shrinkFuel n (w / 2) bound else some w

/-- The `Packer` object: constructor fields (line 37) and the member
vectors populated by `Pack`. -/
structure Packer where
  width : Int
  height : Int
  pad : Int
  bitmaps : List Bitmap := []
  points : List Point := []
  dupLookup : List (Nat × Nat) := []
deriving Repr, DecidableEq

/-- The state at the top of `Packer::Pack`: a fresh bin built from the
working canvas size, the current member vectors, `ww = hh = 0`. -/
def initState (initBin : Int → Int → β) (pk : Packer) : PackState β :=
  { bin := initBin pk.width pk.height, bitmaps := pk.bitmaps,
    points := pk.points, dupLookup := pk.dupLookup,
    ww := 0, hh := 0, inserts := 0 }

/-- `Packer::Pack` (lines 43-101): run the placement loop, then shrink
`width` and `height` by the two halving loops.  `fuel` bounds the
halving loops; `none` reports that a halving loop did not finish within
the fuel. -/
def Packer.Pack (fuel : Nat) (insert : β → Int → Int → Bool → β × Rect)
    (equals : Bitmap → Bitmap → Bool) (initBin : Int → Int → β)
    (pk : Packer) (input : List Bitmap) (verbose unique rotate : Bool) :
    Option (Packer × List Bitmap) :=
  let res := packLoop insert equals pk.pad unique rotate (initState initBin pk) input
  match shrinkFuel fuel pk.width res.1.ww, shrinkFuel fuel pk.height res.1.hh with
  | some w, some h =>
      some ({ pk with
                width := w, height := h, bitmaps := res.1.bitmaps,
                points := res.1.points, dupLookup := res.1.dupLookup }, res.2)
  | _, _ => none

/-- A concrete collaborator for witnesses: replies with a scripted list
of rectangles, and with the zero-size sentinel once the script is
exhausted. -/
def scriptedInsert (s : List Rect) (_w _h : Int) (_rot : Bool) :
    List Rect × Rect :=
  match s with
  | [] => ([], { x := 0, y := 0, width := 0, height := 0 })
  | r :: rs => (rs, r)

/-- A concrete `Bitmap::Equals` for witnesses: pixel-content comparison
(size and data, not the name). -/
def bitmapEq (a b : Bitmap) : Bool :=
  a.width == b.width && a.height == b.height && a.data == b.data

/-! ### The binary encoder (`Packer::SaveBin`, `alignStream`,
`sort_permutation`, `apply_permutation_in_place`) -/

/-- The comparator of `Packer::SaveBin` line 147:
`a->name.compare(b->name) < 0` (lexicographic byte order).  It is
phrased on the character list so that it evaluates in the kernel;
by `String.lt_iff` this is exactly the lexicographic order of
`String`, which agrees with byte order on the byte range. -/
def nameLt (a b : Bitmap) : Bool := decide (a.name.data < b.name.data)

/-- The postcondition of `sort_permutation` (lines 237-247): `std::sort`
over `iota`-initialised indices with the name comparator yields some
permutation `p` of `0..n-1` such that reading `vec` through `p` is
sorted for the comparator.  `std::sort` leaves the order of
comparator-equal indices unspecified, so the embedding is the predicate
of all conforming outputs rather than one function. -/
def IsSortPerm (v : List Bitmap) (p : List Nat) : Prop :=
  p.Perm (List.range v.length) ∧
  p.Pairwise (fun i j => nameLt (v.getD j default) (v.getD i default) = false)

/-- The effect of `apply_permutation_in_place` (lines 249-272): the
cycle-chasing swaps realise `vec_new[i] = vec_old[p[i]]` (the documented
contract of the permutation-application idiom the source uses). -/
def applyPerm (d : α) (p : List Nat) (v : List α) : List α :=
  p.map (fun i => v.getD i d)

/-- The record byte footprint computed at line 161:
`2 + name.length() + 8 + (trim ? 8 : 0) + (rotate ? 1 : 0)`. -/
def itemFootprint (b : Bitmap) (trim rotate : Bool) : Nat :=
  2 + b.name.length + 8 + (if trim then 8 else 0) + (if rotate then 1 else 0)

/-- Modelled from the spec: `WriteShort` of binary.hpp (not under the
core sources) emits a 2-byte signed integer; the byte order is taken
little-endian — the theorems below depend only on the byte count. -/
def writeShort (v : Int) : List Nat :=
  [(v.emod 65536).toNat % 256, (v.emod 65536).toNat / 256]

/-- Modelled from the spec: `WriteByte` of binary.hpp emits one byte. -/
def writeByte (v : Nat) : List Nat := [v % 256]

/-- Modelled from the spec: `WriteLengthPrefixedString` of binary.hpp
emits a 2-byte length followed by the name bytes. -/
def writeLPString (s : String) : List Nat :=
  writeShort (s.length : Int) ++ s.data.map Char.toNat

/-- `remaining = alignment - (position % alignment)` of `alignStream`
(line 229). -/
def padAmount (pos alignment : Nat) : Nat := alignment - pos % alignment

/-- `alignStream` (lines 222-234): append `remaining` zero bytes when
`remaining > 0` (the `position >= 0` guard always holds over `Nat`). -/
def alignStream (stream : List Nat) (alignment : Nat) : List Nat :=
  if 0 < padAmount stream.length alignment then
    stream ++ List.replicate (padAmount stream.length alignment) 0
  else stream

/-- One `version >= 0` record of the `SaveBin` loop (lines 170-186):
x, y, width, height shorts, the trim shorts, the rotation byte, then
the length-prefixed name. -/
def encodeItemV0 (trim rotate : Bool) (bp : Bitmap × Point) : List Nat :=
  writeShort bp.2.x ++ writeShort bp.2.y ++
  writeShort bp.1.width ++ writeShort bp.1.height ++
  (if trim then
    writeShort bp.1.frameX ++ writeShort bp.1.frameY ++
    writeShort bp.1.frameW ++ writeShort bp.1.frameH
   else []) ++
  (if rotate then writeByte (if bp.2.rot then 1 else 0) else []) ++
  writeLPString bp.1.name

/-- The `SaveBin` per-item loop (lines 158-190) for `version >= 0`,
over the zipped parallel vectors: skip the item when its footprint
exceeds `alignment` (line 161), otherwise emit the record and align. -/
def saveBinLoopV0 (trim rotate : Bool) (alignment : Nat) :
    List (Bitmap × Point) → List Nat → List Nat
  | [], stream => stream
  | bp :: rest, stream =>
      if alignment < itemFootprint bp.1 trim rotate then
        saveBinLoopV0 trim rotate alignment rest stream
      else
        saveBinLoopV0 trim rotate alignment rest
          (alignStream (stream ++ encodeItemV0 trim rotate bp) alignment)

/-- `Packer::SaveBin` (lines 143-191) for `version >= 0`: apply a
`sort_permutation` output `p` to both vectors, write the header
(`WriteStringVersion` of binary.hpp is not under the core sources and
enters as the abstract byte list `headerBytes`, followed by the 2-byte
item count), align, then run the per-item loop. -/
def saveBinV0 (headerBytes : List Nat) (bitmaps : List Bitmap)
    (points : List Point) (p : List Nat) (trim rotate : Bool)
    (alignment : Nat) : List Nat :=
  saveBinLoopV0 trim rotate alignment
    (List.zip (applyPerm default p bitmaps) (applyPerm default p points))
    (alignStream (headerBytes ++ writeShort (bitmaps.length : Int)) alignment)

/-! ### The invariants the claims are about -/

/-- Every record with `dupID ≥ 0` agrees with the record at index
`dupID` on `x`, `y` and `rot`. -/
def RecordsMatch (pts : List Point) : Prop :=
  ∀ i, i < pts.length → 0 ≤ (pts.getD i default).dupID →
    (pts.getD i default).dupID.toNat < pts.length ∧
    (pts.getD i default).x = (pts.getD (pts.getD i default).dupID.toNat default).x ∧
    (pts.getD i default).y = (pts.getD (pts.getD i default).dupID.toNat default).y ∧
    (pts.getD i default).rot = (pts.getD (pts.getD i default).dupID.toNat default).rot

/-- Every `dupLookup` binding points below the end of `points`. -/
def LookupValid (st : PackState β) : Prop :=
  ∀ h i, lookupHash st.dupLookup h = some i → i < st.points.length

/-- The no-hash-collision hypothesis for the amended C9: within `univ`,
equal hashes imply pixel equality. -/
def NoCollision (equals : Bitmap → Bitmap → Bool) (univ : List Bitmap) : Prop :=
  ∀ a ∈ univ, ∀ b ∈ univ, a.hashValue = b.hashValue → equals a b = true

/-- The bookkeeping invariant for the amended C9: the parallel vectors
have equal length and every `dupLookup` binding `h ↦ i` names an
already-packed bitmap of hash `h` drawn from `univ`. -/
def HashInv (univ : List Bitmap) (st : PackState β) : Prop :=
  st.points.length = st.bitmaps.length ∧
  ∀ h i, lookupHash st.dupLookup h = some i →
    i < st.bitmaps.length ∧ (st.bitmaps.getD i default).hashValue = h ∧
    st.bitmaps.getD i default ∈ univ

/-! ### Concrete data for the witnesses and counterexamples -/

/-- 3×3 bitmap, hash 10. -/
def bmA : Bitmap := { name := "a", width := 3, height := 3, hashValue := 10, data := [1] }

/-- Pixel-identical to `bmA` under a different name: a true duplicate. -/
def bmB : Bitmap := { name := "b", width := 3, height := 3, hashValue := 10, data := [1] }

/-- 5×2 bitmap, hash 20. -/
def bmC : Bitmap := { name := "c", width := 5, height := 2, hashValue := 20, data := [2] }

/-- Hash collision with `bmA`: same hash, different pixels. -/
def bmX : Bitmap := { name := "x", width := 3, height := 3, hashValue := 10, data := [9] }

/-- A bitmap whose 10-character name makes its binary record footprint
`2 + 10 + 8 = 20` bytes. -/
def bmLong : Bitmap := { name := "abcdefghij", width := 2, height := 2, hashValue := 30, data := [4] }

/-- First of two distinct bitmaps sharing the name "n". -/
def bmN1 : Bitmap := { name := "n", width := 1, height := 1, hashValue := 1, data := [1] }

/-- Second of two distinct bitmaps sharing the name "n". -/
def bmN2 : Bitmap := { name := "n", width := 1, height := 1, hashValue := 2, data := [2] }

/-- Scripted reply placing a 3×3 rectangle at the origin. -/
def rectA : Rect := { x := 0, y := 0, width := 3, height := 3 }

/-- Scripted reply placing a 5×2 rectangle at (3,0). -/
def rectC : Rect := { x := 3, y := 0, width := 5, height := 2 }

/-- A fresh `PackState` over the scripted collaborator. -/
def freshState (script : List Rect) : PackState (List Rect) :=
  { bin := script, bitmaps := [], points := [], dupLookup := [],
    ww := 0, hh := 0, inserts := 0 }

/-- The state after `bmA` has been placed at `rectA` (one scripted
reply, `rectC`, still pending). -/
def stA : PackState (List Rect) :=
  { bin := [rectC], bitmaps := [bmA],
    points := [{ x := 0, y := 0, dupID := -1, rot := false }],
    dupLookup := [(10, 0)], ww := 3, hh := 3, inserts := 1 }

/-- A concrete 16×16 `Packer` with no padding. -/
def pkW : Packer := { width := 16, height := 16, pad := 0 }

/-- The loop state `pkW` reaches on input `[bmA, bmC]` with the script
`[rectA, rectC]`: both placed, tight bounds `ww = 8`, `hh = 3`. -/
def stW : PackState (List Rect) :=
  { bin := [], bitmaps := [bmA, bmC],
    points := [{ x := 0, y := 0, dupID := -1, rot := false },
               { x := 3, y := 0, dupID := -1, rot := false }],
    dupLookup := [(10, 0), (20, 1)], ww := 8, hh := 3, inserts := 2 }

/-- The `Packer` after that run: width shrunk 16 → 8, height 16 → 4. -/
def pkW2 : Packer :=
  { width := 8, height := 4, pad := 0, bitmaps := stW.bitmaps,
    points := stW.points, dupLookup := stW.dupLookup }

/-! ### Unfolding equations of the packing loop -/

theorem packLoop_nil (insert : β → Int → Int → Bool → β × Rect)
    (equals : Bitmap → Bitmap → Bool) (pad : Int) (unique rotate : Bool)
    (st : PackState β) :
    packLoop insert equals pad unique rotate st [] = (st, []) := rfl

theorem packLoop_cons_dup {insert : β → Int → Int → Bool → β × Rect}
    {equals : Bitmap → Bitmap → Bool} {pad : Int} {unique rotate : Bool}
    {st : PackState β} {b : Bitmap} {di : Nat} (rest : List Bitmap)
    (h : dupHit equals unique st b = some di) :
    packLoop insert equals pad unique rotate st (b :: rest) =
      packLoop insert equals pad unique rotate (dupAppend st b di) rest := by
  simp [packLoop, h]

theorem packLoop_cons_fail {insert : β → Int → Int → Bool → β × Rect}
    {equals : Bitmap → Bitmap → Bool} {pad : Int} {unique rotate : Bool}
    {st : PackState β} {b : Bitmap} {bin2 : β} {rect : Rect} (rest : List Bitmap)
    (h : dupHit equals unique st b = none)
    (hins : insert st.bin (b.width + pad) (b.height + pad) rotate = (bin2, rect))
    (hz : rect.width = 0 ∨ rect.height = 0) :
    packLoop insert equals pad unique rotate st (b :: rest) =
      ({ st with bin := bin2, inserts := st.inserts + 1 }, b :: rest) := by
  simp only [packLoop, h, hins]
  rw [if_pos hz]

theorem packLoop_cons_place {insert : β → Int → Int → Bool → β × Rect}
    {equals : Bitmap → Bitmap → Bool} {pad : Int} {unique rotate : Bool}
    {st : PackState β} {b : Bitmap} {bin2 : β} {rect : Rect} (rest : List Bitmap)
    (h : dupHit equals unique st b = none)
    (hins : insert st.bin (b.width + pad) (b.height + pad) rotate = (bin2, rect))
    (hz : ¬(rect.width = 0 ∨ rect.height = 0)) :
    packLoop insert equals pad unique rotate st (b :: rest) =
      packLoop insert equals pad unique rotate
        (placeAppend st b unique rotate pad bin2 rect) rest := by
  simp only [packLoop, h, hins]
  rw [if_neg hz]

/-! ### dupLookup lemmas -/

theorem lookupHash_assignHash_self (m : List (Nat × Nat)) (h v : Nat) :
    lookupHash (assignHash m h v) h = some v := by
  induction m with
  | nil => simp [assignHash, lookupHash]
  | cons e rest ih =>
      by_cases he : e.1 = h <;> simp [assignHash, lookupHash, he, ih]

theorem lookupHash_assignHash_ne (m : List (Nat × Nat)) {h h2 : Nat}
    (v : Nat) (hne : h2 ≠ h) :
    lookupHash (assignHash m h v) h2 = lookupHash m h2 := by
  induction m with
  | nil => simp [assignHash, lookupHash, Ne.symm hne]
  | cons e rest ih =>
      by_cases he : e.1 = h
      · simp [assignHash, lookupHash, he, Ne.symm hne]
      · simp [assignHash, lookupHash, he, ih]

/-! ### getD facts used by the invariants -/

theorem getD_concat_self (l : List α) (x d : α) :
    (l ++ [x]).getD l.length d = x := by
  rw [List.getD_eq_getElem?_getD, List.getElem?_concat_length]
  rfl

theorem dupHit_some {equals : Bitmap → Bitmap → Bool} {unique : Bool}
    {st : PackState β} {b : Bitmap} {di : Nat}
    (h : dupHit equals unique st b = some di) :
    lookupHash st.dupLookup b.hashValue = some di := by
  unfold dupHit at h
  by_cases hu : unique
  · simp only [if_pos hu] at h
    cases hl : lookupHash st.dupLookup b.hashValue with
    | none => simp [hl] at h
    | some dj =>
        simp only [hl] at h
        by_cases he : equals b (st.bitmaps.getD dj default) = true
        · rw [if_pos he] at h
          exact h
        · rw [if_neg he] at h
          exact Option.noConfusion h
  · simp [hu] at h

/-! ### Preservation of the duplicate-fidelity invariant -/

theorem recordsMatch_append_dup (pts : List Point) (di : Nat)
    (hdi : di < pts.length) (hm : RecordsMatch pts) :
    RecordsMatch (pts ++ [{ pts.getD di default with dupID := (di : Int) }]) := by
  intro i hi hdup
  rw [List.length_append, List.length_singleton] at hi
  by_cases hlt : i < pts.length
  · rw [List.getD_append _ _ _ _ hlt] at hdup ⊢
    obtain ⟨h1, h2, h3, h4⟩ := hm i hlt hdup
    refine ⟨?_, ?_, ?_, ?_⟩
    · simp only [List.length_append, List.length_singleton]; omega
    · rw [List.getD_append _ _ _ _ h1]; exact h2
    · rw [List.getD_append _ _ _ _ h1]; exact h3
    · rw [List.getD_append _ _ _ _ h1]; exact h4
  · have hieq : i = pts.length := by omega
    subst hieq
    rw [getD_concat_self] at hdup ⊢
    refine ⟨?_, ?_, ?_, ?_⟩
    · simp only [List.length_append, List.length_singleton, Int.toNat_natCast]
      omega
    · rw [show ((di : Int)).toNat = di from Int.toNat_natCast di,
         List.getD_append _ _ _ _ hdi]
    · rw [show ((di : Int)).toNat = di from Int.toNat_natCast di,
         List.getD_append _ _ _ _ hdi]
    · rw [show ((di : Int)).toNat = di from Int.toNat_natCast di,
         List.getD_append _ _ _ _ hdi]

theorem recordsMatch_append_new (pts : List Point) (p : Point)
    (hp : p.dupID < 0) (hm : RecordsMatch pts) :
    RecordsMatch (pts ++ [p]) := by
  intro i hi hdup
  rw [List.length_append, List.length_singleton] at hi
  by_cases hlt : i < pts.length
  · rw [List.getD_append _ _ _ _ hlt] at hdup ⊢
    obtain ⟨h1, h2, h3, h4⟩ := hm i hlt hdup
    refine ⟨?_, ?_, ?_, ?_⟩
    · simp only [List.length_append, List.length_singleton]; omega
    · rw [List.getD_append _ _ _ _ h1]; exact h2
    · rw [List.getD_append _ _ _ _ h1]; exact h3
    · rw [List.getD_append _ _ _ _ h1]; exact h4
  · have hieq : i = pts.length := by omega
    subst hieq
    rw [getD_concat_self] at hdup
    omega

theorem packLoop_recordsMatch (insert : β → Int → Int → Bool → β × Rect)
    (equals : Bitmap → Bitmap → Bool) (pad : Int) (unique rotate : Bool) :
    ∀ (input : List Bitmap) (st : PackState β),
      LookupValid st → RecordsMatch st.points →
      LookupValid (packLoop insert equals pad unique rotate st input).1 ∧
      RecordsMatch (packLoop insert equals pad unique rotate st input).1.points := by
  intro input
  induction input with
  | nil => intro st h1 h2; exact ⟨h1, h2⟩
  | cons b rest ih =>
      intro st h1 h2
      cases hd : dupHit equals unique st b with
      | some di =>
          rw [packLoop_cons_dup rest hd]
          have hdi : di < st.points.length := h1 _ _ (dupHit_some hd)
          apply ih
          · intro h i hl
            have := h1 h i hl
            simp only [dupAppend, List.length_append, List.length_singleton]
            omega
          · exact recordsMatch_append_dup st.points di hdi h2
      | none =>
          cases hres : insert st.bin (b.width + pad) (b.height + pad) rotate with
          | mk bin2 rect =>
            by_cases hz : rect.width = 0 ∨ rect.height = 0
            · rw [packLoop_cons_fail rest hd hres hz]
              exact ⟨fun h i hl => h1 h i hl, h2⟩
            · rw [packLoop_cons_place rest hd hres hz]
              apply ih
              · intro h i hl
                simp only [placeAppend, List.length_append, List.length_singleton]
                by_cases hu : unique
                · simp only [placeAppend, hu, if_true] at hl
                  by_cases hh2 : h = b.hashValue
                  · subst hh2
                    rw [lookupHash_assignHash_self] at hl
                    cases hl
                    omega
                  · rw [lookupHash_assignHash_ne _ _ hh2] at hl
                    have := h1 h i hl
                    omega
                · simp only [placeAppend, hu, if_false] at hl
                  have := h1 h i hl
                  omega
              · exact recordsMatch_append_new st.points _ (by norm_num) h2

/-! ### Length preservation and zip/permutation commutation -/

theorem packLoop_length (insert : β → Int → Int → Bool → β × Rect)
    (equals : Bitmap → Bitmap → Bool) (pad : Int) (unique rotate : Bool) :
    ∀ (input : List Bitmap) (st : PackState β),
      st.bitmaps.length = st.points.length →
      (packLoop insert equals pad unique rotate st input).1.bitmaps.length =
        (packLoop insert equals pad unique rotate st input).1.points.length := by
  intro input
  induction input with
  | nil => exact fun st h => h
  | cons b rest ih =>
      intro st h
      cases hd : dupHit equals unique st b with
      | some di =>
          rw [packLoop_cons_dup rest hd]
          apply ih
          simp [dupAppend, h]
      | none =>
          cases hres : insert st.bin (b.width + pad) (b.height + pad) rotate with
          | mk bin2 rect =>
            by_cases hz : rect.width = 0 ∨ rect.height = 0
            · rw [packLoop_cons_fail rest hd hres hz]
              exact h
            · rw [packLoop_cons_place rest hd hres hz]
              apply ih
              simp [placeAppend, h]

theorem getD_zip (a : List α) (c : List γ) (da : α) (dc : γ)
    (hlen : a.length = c.length) :
    ∀ i, (List.zip a c).getD i (da, dc) = (a.getD i da, c.getD i dc) := by
  induction a generalizing c with
  | nil =>
      cases c with
      | nil => intro i; cases i <;> rfl
      | cons y ys => simp at hlen
  | cons x xs ih =>
      cases c with
      | nil => simp at hlen
      | cons y ys =>
          intro i
          cases i with
          | zero => rfl
          | succ j =>
              simp only [List.zip_cons_cons, List.getD_cons_succ]
              exact ih ys (by simpa using hlen) j

theorem zip_applyPerm (p : List Nat) (a : List α) (c : List γ)
    (da : α) (dc : γ) (hlen : a.length = c.length) :
    List.zip (applyPerm da p a) (applyPerm dc p c) =
      applyPerm (da, dc) p (List.zip a c) := by
  unfold applyPerm
  rw [List.zip_map']
  have hfun : (fun i => (List.zip a c).getD i (da, dc)) =
      (fun i => (a.getD i da, c.getD i dc)) :=
    funext (getD_zip a c da dc hlen)
  rw [hfun]

/-! ### Claim theorems: the packing loop -/

/-- C2: a record appended through the duplicate branch copies `x`, `y`
and `rot` verbatim from the record at index `dupID` (first conjunct:
the step; the cloned record equals `points[di]` with only `dupID`
overwritten, and the bin, tight bounds, insert count and `dupLookup`
are untouched, so no `Insert` happens for it), and in every reachable
final state each `dupID ≥ 0` record agrees with the record at its
`dupID` index (second conjunct). -/
theorem pack_duplicate_fidelity (β : Type) (insert : β → Int → Int → Bool → β × Rect)
    (equals : Bitmap → Bitmap → Bool) (pad : Int) (unique rotate : Bool) :
    (∀ (st : PackState β) (b : Bitmap) (di : Nat) (rest : List Bitmap),
        dupHit equals unique st b = some di →
        packLoop insert equals pad unique rotate st (b :: rest) =
          packLoop insert equals pad unique rotate (dupAppend st b di) rest ∧
        (dupAppend st b di).bin = st.bin ∧
        (dupAppend st b di).ww = st.ww ∧
        (dupAppend st b di).hh = st.hh ∧
        (dupAppend st b di).inserts = st.inserts ∧
        (dupAppend st b di).dupLookup = st.dupLookup ∧
        (dupAppend st b di).points =
          st.points ++ [{ st.points.getD di default with dupID := (di : Int) }]) ∧
    (∀ (st : PackState β) (input : List Bitmap),
        LookupValid st → RecordsMatch st.points →
        RecordsMatch (packLoop insert equals pad unique rotate st input).1.points) :=
  ⟨fun _ _ _ rest hd => ⟨packLoop_cons_dup rest hd, rfl, rfl, rfl, rfl, rfl, rfl⟩,
   fun st input h1 h2 =>
     (packLoop_recordsMatch insert equals pad unique rotate input st h1 h2).2⟩

theorem pack_duplicate_fidelity_witness :
    (packLoop scriptedInsert bitmapEq 0 true true stA [bmB] =
        packLoop scriptedInsert bitmapEq 0 true true (dupAppend stA bmB 0) [] ∧
      (dupAppend stA bmB 0).bin = stA.bin ∧
      (dupAppend stA bmB 0).ww = stA.ww ∧
      (dupAppend stA bmB 0).hh = stA.hh ∧
      (dupAppend stA bmB 0).inserts = stA.inserts ∧
      (dupAppend stA bmB 0).dupLookup = stA.dupLookup ∧
      (dupAppend stA bmB 0).points =
        stA.points ++ [{ stA.points.getD 0 default with dupID := (0 : Int) }]) ∧
    RecordsMatch (packLoop scriptedInsert bitmapEq 0 true true
        (freshState [rectA, rectC]) [bmA, bmB, bmC]).1.points :=
  ⟨(pack_duplicate_fidelity _ scriptedInsert bitmapEq 0 true true).1 stA bmB 0 []
      (by decide),
   (pack_duplicate_fidelity _ scriptedInsert bitmapEq 0 true true).2
      (freshState [rectA, rectC]) [bmA, bmB, bmC]
      (by intro h i hl; simp [freshState, lookupHash] at hl)
      (by intro i hi hdup; simp [freshState] at hi)⟩

/-- C3: when `Insert` answers with a zero-width or zero-height
rectangle, the packing loop stops at once: the already-appended
`bitmaps`/`points` (and `dupLookup`, `ww`, `hh`) are unchanged, and the
current item together with the whole remaining input is returned
unconsumed.  `packLoop` is a total function, so no exception arises. -/
theorem pack_stops_on_full {β : Type} {insert : β → Int → Int → Bool → β × Rect}
    {equals : Bitmap → Bitmap → Bool} {pad : Int} {unique rotate : Bool}
    {st : PackState β} {b : Bitmap} {bin2 : β} {rect : Rect} (rest : List Bitmap)
    (hdup : dupHit equals unique st b = none)
    (hins : insert st.bin (b.width + pad) (b.height + pad) rotate = (bin2, rect))
    (hz : rect.width = 0 ∨ rect.height = 0) :
    packLoop insert equals pad unique rotate st (b :: rest) =
      ({ st with bin := bin2, inserts := st.inserts + 1 }, b :: rest) :=
  packLoop_cons_fail rest hdup hins hz

theorem pack_stops_on_full_witness :
    packLoop scriptedInsert bitmapEq 0 true true { stA with bin := [] } [bmC, bmX] =
      ({ stA with bin := ([] : List Rect), inserts := stA.inserts + 1 }, [bmC, bmX]) :=
  @pack_stops_on_full (List Rect) scriptedInsert bitmapEq 0 true true
    { stA with bin := [] } bmC []
    { x := 0, y := 0, width := 0, height := 0 } [bmX]
    (by decide) (by decide) (by decide)

/-- C7: the parallel vectors stay index-aligned: the packing loop
preserves `bitmaps.length = points.length` (first conjunct), and
applying one permutation to both vectors, as the binary encoder does,
permutes the zipped pairs — so every post-sort pair was a pre-sort pair
(second conjunct). -/
theorem pack_parallel_arrays (β : Type) (insert : β → Int → Int → Bool → β × Rect)
    (equals : Bitmap → Bitmap → Bool) (pad : Int) (unique rotate : Bool) :
    (∀ (st : PackState β) (input : List Bitmap),
        st.bitmaps.length = st.points.length →
        (packLoop insert equals pad unique rotate st input).1.bitmaps.length =
          (packLoop insert equals pad unique rotate st input).1.points.length) ∧
    (∀ (p : List Nat) (bms : List Bitmap) (pts : List Point),
        bms.length = pts.length →
        List.zip (applyPerm default p bms) (applyPerm default p pts) =
          applyPerm (default, default) p (List.zip bms pts)) :=
  ⟨fun st input h => packLoop_length insert equals pad unique rotate input st h,
   fun p bms pts h => zip_applyPerm p bms pts default default h⟩

theorem pack_parallel_arrays_witness :
    (packLoop scriptedInsert bitmapEq 0 true true
        (freshState [rectA, rectC]) [bmA, bmB, bmC]).1.bitmaps.length =
      (packLoop scriptedInsert bitmapEq 0 true true
        (freshState [rectA, rectC]) [bmA, bmB, bmC]).1.points.length ∧
    List.zip (applyPerm default [1, 0] [bmA, bmC])
        (applyPerm default [1, 0]
          ([{ x := 0, y := 0, dupID := -1, rot := false },
            { x := 3, y := 0, dupID := -1, rot := true }] : List Point)) =
      applyPerm (default, default) [1, 0]
        (List.zip [bmA, bmC]
          ([{ x := 0, y := 0, dupID := -1, rot := false },
            { x := 3, y := 0, dupID := -1, rot := true }] : List Point)) :=
  ⟨(pack_parallel_arrays (List Rect) scriptedInsert bitmapEq 0 true true).1
      (freshState [rectA, rectC]) [bmA, bmB, bmC] (by decide),
   (pack_parallel_arrays (List Rect) scriptedInsert bitmapEq 0 true true).2
      [1, 0] [bmA, bmC]
      ([{ x := 0, y := 0, dupID := -1, rot := false },
        { x := 3, y := 0, dupID := -1, rot := true }] : List Point) (by decide)⟩

/-- C8: on a successful non-duplicate placement the appended record's
`rot` flag is exactly `rotate && bitmap.width != rect.width - pad`,
built from nothing else of the `Insert` reply than `rect` itself. -/
theorem pack_rot_detection {β : Type} {insert : β → Int → Int → Bool → β × Rect}
    {equals : Bitmap → Bitmap → Bool} {pad : Int} {unique rotate : Bool}
    {st : PackState β} {b : Bitmap} {bin2 : β} {rect : Rect} (rest : List Bitmap)
    (hdup : dupHit equals unique st b = none)
    (hins : insert st.bin (b.width + pad) (b.height + pad) rotate = (bin2, rect))
    (hz : ¬(rect.width = 0 ∨ rect.height = 0)) :
    packLoop insert equals pad unique rotate st (b :: rest) =
      packLoop insert equals pad unique rotate
        (placeAppend st b unique rotate pad bin2 rect) rest ∧
    (placeAppend st b unique rotate pad bin2 rect).points =
      st.points ++ [{ x := rect.x, y := rect.y, dupID := -1,
                      rot := rotate && (b.width != rect.width - pad) }] :=
  ⟨packLoop_cons_place rest hdup hins hz, rfl⟩

theorem pack_rot_detection_witness :
    (packLoop scriptedInsert bitmapEq 0 true true (freshState [rectC]) [bmC] =
      packLoop scriptedInsert bitmapEq 0 true true
        (placeAppend (freshState [rectC]) bmC true true 0 [] rectC) []) ∧
    (placeAppend (freshState [rectC]) bmC true true 0 [] rectC).points =
      (freshState [rectC]).points ++
        [{ x := rectC.x, y := rectC.y, dupID := -1,
           rot := true && (bmC.width != rectC.width - 0) }] :=
  @pack_rot_detection (List Rect) scriptedInsert bitmapEq 0 true true
    (freshState [rectC]) bmC [] rectC [] (by decide) (by decide) (by decide)

/-! ### The halving loops -/

theorem shrinkFuel_some_le {w bound r : Int} :
    ∀ {n m : Nat}, shrinkFuel n w bound = some r → n ≤ m →
      shrinkFuel m w bound = some r := by
  intro n
  induction n generalizing w with
  | zero =>
      intro m h hm
      by_cases hg : bound ≤ w / 2
      · simp [shrinkFuel, hg] at h
      · simp only [shrinkFuel, if_neg hg] at h
        obtain rfl := Option.some.inj h
        cases m with
        | zero => simp [shrinkFuel, hg]
        | succ m2 => simp [shrinkFuel, hg]
  | succ n ih =>
      intro m h hm
      by_cases hg : bound ≤ w / 2
      · simp only [shrinkFuel, if_pos hg] at h
        cases m with
        | zero => omega
        | succ m2 =>
            simp only [shrinkFuel, if_pos hg]
            exact ih h (by omega)
      · simp only [shrinkFuel, if_neg hg] at h
        obtain rfl := Option.some.inj h
        cases m with
        | zero => simp [shrinkFuel, hg]
        | succ m2 => simp [shrinkFuel, hg]

theorem shrink_terminates (bound : Int) (hb : 1 ≤ bound) :
    ∀ w : Int, ∃ n r, shrinkFuel n w bound = some r := by
  have main : ∀ (k : Nat) (w : Int), w.toNat ≤ k →
      ∃ n r, shrinkFuel n w bound = some r := by
    intro k
    induction k with
    | zero =>
        intro w hw
        by_cases hg : bound ≤ w / 2
        · exfalso; omega
        · exact ⟨0, w, by simp [shrinkFuel, hg]⟩
    | succ k ih =>
        intro w hw
        by_cases hg : bound ≤ w / 2
        · obtain ⟨n, r, hr⟩ := ih (w / 2) (by omega)
          exact ⟨n + 1, r, by simp [shrinkFuel, hg, hr]⟩
        · exact ⟨0, w, by simp [shrinkFuel, hg]⟩
  exact fun w => main w.toNat w le_rfl

theorem int_ediv_pow_succ_left (w : Int) (hw : 0 ≤ w) (k : Nat) :
    w / 2 / (2 ^ k : Int) = w / (2 ^ (k + 1) : Int) := by
  obtain ⟨m, rfl⟩ := Int.eq_ofNat_of_zero_le hw
  have h1 : ((m / 2 : Nat) : Int) = (m : Int) / 2 := by
    exact_mod_cast Int.ofNat_ediv m 2
  have h2 : ((m / 2 / 2 ^ k : Nat) : Int) = ((m / 2 : Nat) : Int) / (2 ^ k : Int) := by
    exact_mod_cast Int.ofNat_ediv (m / 2) (2 ^ k)
  have h3 : ((m / 2 ^ (k + 1) : Nat) : Int) = (m : Int) / (2 ^ (k + 1) : Int) := by
    exact_mod_cast Int.ofNat_ediv m (2 ^ (k + 1))
  rw [← h1, ← h2, ← h3]
  norm_cast
  rw [Nat.div_div_eq_div_mul, ← pow_succ']

theorem int_ediv_pow_succ_right (w : Int) (hw : 0 ≤ w) (k : Nat) :
    w / (2 ^ k : Int) / 2 = w / (2 ^ (k + 1) : Int) := by
  obtain ⟨m, rfl⟩ := Int.eq_ofNat_of_zero_le hw
  have h1 : ((m / 2 ^ k : Nat) : Int) = (m : Int) / (2 ^ k : Int) := by
    exact_mod_cast Int.ofNat_ediv m (2 ^ k)
  have h2 : ((m / 2 ^ k / 2 : Nat) : Int) = ((m / 2 ^ k : Nat) : Int) / 2 := by
    exact_mod_cast Int.ofNat_ediv (m / 2 ^ k) 2
  have h3 : ((m / 2 ^ (k + 1) : Nat) : Int) = (m : Int) / (2 ^ (k + 1) : Int) := by
    exact_mod_cast Int.ofNat_ediv m (2 ^ (k + 1))
  rw [← h1, ← h2, ← h3]
  norm_cast
  rw [Nat.div_div_eq_div_mul, ← pow_succ]

theorem int_ediv_pow_antitone (w : Int) (hw : 0 ≤ w) {j k : Nat} (hjk : j ≤ k) :
    w / (2 ^ k : Int) ≤ w / (2 ^ j : Int) := by
  obtain ⟨m, rfl⟩ := Int.eq_ofNat_of_zero_le hw
  have h1 : ((m / 2 ^ k : Nat) : Int) = (m : Int) / (2 ^ k : Int) := by
    exact_mod_cast Int.ofNat_ediv m (2 ^ k)
  have h2 : ((m / 2 ^ j : Nat) : Int) = (m : Int) / (2 ^ j : Int) := by
    exact_mod_cast Int.ofNat_ediv m (2 ^ j)
  rw [← h1, ← h2]
  exact_mod_cast Nat.div_le_div_left
    (Nat.pow_le_pow_right (by norm_num) hjk) (Nat.pos_pow_of_pos j (by norm_num))

theorem shrinkFuel_spec (bound : Int) (hb : 1 ≤ bound) :
    ∀ (n : Nat) (w r : Int), 0 ≤ w → shrinkFuel n w bound = some r →
      (∃ k : Nat, r = w / 2 ^ k) ∧ (bound ≤ w → bound ≤ r) ∧ r / 2 < bound := by
  intro n
  induction n with
  | zero =>
      intro w r hw h
      by_cases hg : bound ≤ w / 2
      · simp [shrinkFuel, hg] at h
      · simp only [shrinkFuel, if_neg hg] at h
        cases h
        exact ⟨⟨0, by simp⟩, fun hle => hle, by omega⟩
  | succ n ih =>
      intro w r hw h
      by_cases hg : bound ≤ w / 2
      · simp only [shrinkFuel, if_pos hg] at h
        obtain ⟨⟨k, hk⟩, hle, hlt⟩ := ih (w / 2) r (by omega) h
        refine ⟨⟨k + 1, ?_⟩, fun _ => hle hg, hlt⟩
        rw [hk, int_ediv_pow_succ_left w hw k]
      · simp only [shrinkFuel, if_neg hg] at h
        cases h
        exact ⟨⟨0, by simp⟩, fun hle => hle, by omega⟩

theorem shrinkFuel_min (bound : Int) (hb : 1 ≤ bound) (n : Nat) (w r : Int)
    (hw : 0 ≤ w) (h : shrinkFuel n w bound = some r) :
    ∀ k : Nat, bound ≤ w / 2 ^ k → r ≤ w / 2 ^ k := by
  obtain ⟨⟨j, hj⟩, _, hlt⟩ := shrinkFuel_spec bound hb n w r hw h
  intro k hk
  by_cases hkj : k ≤ j
  · rw [hj]
    exact int_ediv_pow_antitone w hw hkj
  · have h1 : w / 2 ^ k ≤ w / 2 ^ (j + 1) := int_ediv_pow_antitone w hw (by omega)
    have h2 : w / (2 ^ (j + 1) : Int) = r / 2 := by
      rw [hj, int_ediv_pow_succ_right w hw j]
    omega

theorem Pack_eq_some {β : Type} {fuel : Nat}
    {insert : β → Int → Int → Bool → β × Rect} {equals : Bitmap → Bitmap → Bool}
    {initBin : Int → Int → β} {pk : Packer} {input : List Bitmap}
    {verbose unique rotate : Bool} {pk2 : Packer} {rem2 : List Bitmap}
    (h : Packer.Pack fuel insert equals initBin pk input verbose unique rotate =
      some (pk2, rem2)) :
    shrinkFuel fuel pk.width
        (packLoop insert equals pk.pad unique rotate (initState initBin pk) input).1.ww =
      some pk2.width ∧
    shrinkFuel fuel pk.height
        (packLoop insert equals pk.pad unique rotate (initState initBin pk) input).1.hh =
      some pk2.height := by
  simp only [Packer.Pack] at h
  cases hw : shrinkFuel fuel pk.width
      (packLoop insert equals pk.pad unique rotate (initState initBin pk) input).1.ww with
  | none => rw [hw] at h; simp at h
  | some w2 =>
      cases hh2 : shrinkFuel fuel pk.height
          (packLoop insert equals pk.pad unique rotate (initState initBin pk) input).1.hh with
      | none => rw [hw, hh2] at h; simp at h
      | some h2 =>
          rw [hw, hh2] at h
          simp only [Option.some.injEq, Prod.mk.injEq] at h
          obtain ⟨hpk, _⟩ := h
          subst hpk
          exact ⟨rfl, rfl⟩

/-! ### Claim theorems: the halving loops -/

/-- C1: in every `Pack` run whose halving loops complete, the final
width (resp. height) is of the form `initial / 2 ^ k`, still covers the
tight bound `ww` (resp. `hh`) of the loop state, one further halving
would drop below the bound, and it is the smallest value of that form
covering the bound — given that the bound is positive and not above the
initial size. -/
theorem pack_shrink_minimal {β : Type} {fuel : Nat}
    {insert : β → Int → Int → Bool → β × Rect} {equals : Bitmap → Bitmap → Bool}
    {initBin : Int → Int → β} {pk : Packer} {input : List Bitmap}
    {verbose unique rotate : Bool} {pk2 : Packer} {rem2 : List Bitmap}
    {st : PackState β} {rem : List Bitmap}
    (hrun : Packer.Pack fuel insert equals initBin pk input verbose unique rotate =
      some (pk2, rem2))
    (hst : packLoop insert equals pk.pad unique rotate (initState initBin pk) input =
      (st, rem))
    (hww1 : 1 ≤ st.ww) (hww2 : st.ww ≤ pk.width)
    (hhh1 : 1 ≤ st.hh) (hhh2 : st.hh ≤ pk.height) :
    ((∃ k : Nat, pk2.width = pk.width / 2 ^ k) ∧ st.ww ≤ pk2.width ∧
      pk2.width / 2 < st.ww ∧
      ∀ k : Nat, st.ww ≤ pk.width / 2 ^ k → pk2.width ≤ pk.width / 2 ^ k) ∧
    ((∃ k : Nat, pk2.height = pk.height / 2 ^ k) ∧ st.hh ≤ pk2.height ∧
      pk2.height / 2 < st.hh ∧
      ∀ k : Nat, st.hh ≤ pk.height / 2 ^ k → pk2.height ≤ pk.height / 2 ^ k) := by
  obtain ⟨hw, hh2⟩ := Pack_eq_some hrun
  rw [hst] at hw hh2
  have hw0 : (0 : Int) ≤ pk.width := by omega
  have hh0 : (0 : Int) ≤ pk.height := by omega
  obtain ⟨hex, hle, hlt⟩ := shrinkFuel_spec st.ww hww1 fuel pk.width pk2.width hw0 hw
  obtain ⟨hex2, hle2, hlt2⟩ := shrinkFuel_spec st.hh hhh1 fuel pk.height pk2.height hh0 hh2
  exact ⟨⟨hex, hle hww2, hlt, shrinkFuel_min st.ww hww1 fuel pk.width pk2.width hw0 hw⟩,
         ⟨hex2, hle2 hhh2, hlt2, shrinkFuel_min st.hh hhh1 fuel pk.height pk2.height hh0 hh2⟩⟩

theorem pack_shrink_minimal_witness :
    ((∃ k : Nat, pkW2.width = pkW.width / 2 ^ k) ∧ stW.ww ≤ pkW2.width ∧
      pkW2.width / 2 < stW.ww ∧
      ∀ k : Nat, stW.ww ≤ pkW.width / 2 ^ k → pkW2.width ≤ pkW.width / 2 ^ k) ∧
    ((∃ k : Nat, pkW2.height = pkW.height / 2 ^ k) ∧ stW.hh ≤ pkW2.height ∧
      pkW2.height / 2 < stW.hh ∧
      ∀ k : Nat, stW.hh ≤ pkW.height / 2 ^ k → pkW2.height ≤ pkW.height / 2 ^ k) :=
  @pack_shrink_minimal (List Rect) 10 scriptedInsert bitmapEq
    (fun _ _ => [rectA, rectC]) pkW [bmA, bmC] false true true pkW2 [] stW []
    (by decide) (by decide) (by decide) (by decide) (by decide) (by decide)

/-- C10: whenever the placement loop ends with positive tight bounds
`ww` and `hh` — which a successful non-duplicate placement with a
positive-size rectangle at a nonnegative position guarantees — some
fuel makes both halving loops finish, so `Pack` terminates with a
result. -/
theorem pack_terminates {β : Type} (insert : β → Int → Int → Bool → β × Rect)
    (equals : Bitmap → Bitmap → Bool) (initBin : Int → Int → β)
    (pk : Packer) (input : List Bitmap) (verbose unique rotate : Bool)
    {st : PackState β} {rem : List Bitmap}
    (hst : packLoop insert equals pk.pad unique rotate (initState initBin pk) input =
      (st, rem))
    (hww : 1 ≤ st.ww) (hhh : 1 ≤ st.hh) :
    ∃ (fuel : Nat) (out : Packer × List Bitmap),
      Packer.Pack fuel insert equals initBin pk input verbose unique rotate =
        some out := by
  obtain ⟨n1, r1, h1⟩ := shrink_terminates st.ww hww pk.width
  obtain ⟨n2, r2, h2⟩ := shrink_terminates st.hh hhh pk.height
  have hw2 := shrinkFuel_some_le h1 (Nat.le_max_left n1 n2)
  have hh2 := shrinkFuel_some_le h2 (Nat.le_max_right n1 n2)
  refine ⟨max n1 n2,
    ({ pk with
         width := r1, height := r2, bitmaps := st.bitmaps,
         points := st.points, dupLookup := st.dupLookup }, rem), ?_⟩
  simp only [Packer.Pack]
  rw [hst]
  simp only [hw2, hh2]

theorem pack_terminates_witness :
    ∃ (fuel : Nat) (out : Packer × List Bitmap),
      Packer.Pack fuel scriptedInsert bitmapEq (fun _ _ => [rectA, rectC]) pkW
        [bmA, bmC] false true true = some out :=
  @pack_terminates (List Rect) scriptedInsert bitmapEq (fun _ _ => [rectA, rectC])
    pkW [bmA, bmC] false true true stW [] (by decide) (by decide) (by decide)

/-! ### Alignment and the binary per-item loop -/

theorem padAmount_bounds (pos a : Nat) (ha : 1 ≤ a) :
    1 ≤ padAmount pos a ∧ padAmount pos a ≤ a := by
  have hmod : pos % a < a := Nat.mod_lt _ (by omega)
  unfold padAmount
  omega

theorem alignStream_length (s : List Nat) (a : Nat) (ha : 1 ≤ a) :
    (alignStream s a).length = a * (s.length / a + 1) := by
  have hmod : s.length % a < a := Nat.mod_lt _ (by omega)
  have hdiv := Nat.div_add_mod s.length a
  have hpad : 0 < padAmount s.length a := (padAmount_bounds s.length a ha).1
  unfold alignStream
  rw [if_pos hpad]
  simp only [List.length_append, List.length_replicate]
  unfold padAmount
  rw [Nat.mul_add, Nat.mul_one]
  omega

theorem alignStream_length_mod (s : List Nat) (a : Nat) (ha : 1 ≤ a) :
    (alignStream s a).length % a = 0 := by
  rw [alignStream_length s a ha]
  exact Nat.mul_mod_right a _

theorem alignStream_append (s t : List Nat) (a : Nat) (ha : 1 ≤ a)
    (hs : s.length % a = 0) :
    alignStream (s ++ t) a = s ++ alignStream t a := by
  have hmod : (s ++ t).length % a = t.length % a := by
    rw [List.length_append, Nat.add_mod, hs, Nat.zero_add, Nat.mod_mod_of_dvd]
    exact dvd_refl a
  have hp : padAmount (s ++ t).length a = padAmount t.length a := by
    unfold padAmount
    rw [hmod]
  unfold alignStream
  rw [hp]
  by_cases h0 : 0 < padAmount t.length a
  · rw [if_pos h0, if_pos h0, List.append_assoc]
  · rw [if_neg h0, if_neg h0]

theorem writeShort_length (v : Int) : (writeShort v).length = 2 := rfl

theorem writeByte_length (v : Nat) : (writeByte v).length = 1 := rfl

theorem writeLPString_length (s : String) : (writeLPString s).length = 2 + s.length := by
  unfold writeLPString
  rw [List.length_append, List.length_map]
  rfl

/-- The length of a `version >= 0` record equals the footprint that the
skip test computes. -/
theorem encodeItemV0_length (trim rotate : Bool) (bp : Bitmap × Point) :
    (encodeItemV0 trim rotate bp).length = itemFootprint bp.1 trim rotate := by
  unfold encodeItemV0 itemFootprint
  cases trim <;> cases rotate <;>
    simp only [List.length_append, writeShort_length, writeByte_length,
      writeLPString_length, List.length_nil, Bool.false_eq_true, if_false,
      if_true] <;> omega

/-! ### Claim theorems: the binary encoder's alignment -/

/-- C4 (counterexample): at a stream position that is already a multiple
of the alignment, `alignStream` writes a full `alignment`-sized block of
padding — the claim's "no padding bytes are written, padding length in
[0, alignment)" fails at position 8 with alignment 8, where 8 bytes are
written. -/
theorem alignStream_pad_when_aligned :
    padAmount 8 8 = 8 ∧
    (alignStream (List.replicate 8 0) 8).length = 16 ∧
    ¬ padAmount 8 8 < 8 := by
  refine ⟨rfl, ?_, by decide⟩
  decide

/-- C4 (amended): for positive alignment, `alignStream` always writes
between 1 and `alignment` padding bytes, landing on the smallest
multiple of `alignment` strictly greater than the current position
(so a position that is already aligned receives a full block). -/
theorem alignStream_next_multiple (s : List Nat) (a : Nat) (ha : 1 ≤ a) :
    (alignStream s a).length = a * (s.length / a + 1) ∧
    (alignStream s a).length % a = 0 ∧
    s.length < (alignStream s a).length ∧
    (alignStream s a).length ≤ s.length + a ∧
    1 ≤ padAmount s.length a ∧ padAmount s.length a ≤ a := by
  obtain ⟨hp1, hp2⟩ := padAmount_bounds s.length a ha
  have hlen := alignStream_length s a ha
  have hmod := alignStream_length_mod s a ha
  have hpad : 0 < padAmount s.length a := hp1
  have hexp : (alignStream s a).length = s.length + padAmount s.length a := by
    unfold alignStream
    rw [if_pos hpad]
    simp [List.length_append]
  exact ⟨hlen, hmod, by omega, by omega, hp1, hp2⟩

theorem alignStream_next_multiple_witness :
    (alignStream [7, 7, 7] 8).length = 8 * (([7, 7, 7] : List Nat).length / 8 + 1) ∧
    (alignStream [7, 7, 7] 8).length % 8 = 0 ∧
    ([7, 7, 7] : List Nat).length < (alignStream [7, 7, 7] 8).length ∧
    (alignStream [7, 7, 7] 8).length ≤ ([7, 7, 7] : List Nat).length + 8 ∧
    1 ≤ padAmount ([7, 7, 7] : List Nat).length 8 ∧
    padAmount ([7, 7, 7] : List Nat).length 8 ≤ 8 :=
  alignStream_next_multiple [7, 7, 7] 8 (by decide)

/-- C5: for `version >= 0`, the per-item loop emits exactly the records
whose footprint is within the alignment, each as its own
independently-aligned block: an oversized item contributes no bytes and
the bytes of every other item are exactly what they would be without
it. -/
theorem saveBin_skips_oversized (trim rotate : Bool) (alignment : Nat)
    (ha : 1 ≤ alignment) :
    (∀ bp : Bitmap × Point,
      (encodeItemV0 trim rotate bp).length = itemFootprint bp.1 trim rotate) ∧
    ∀ (items : List (Bitmap × Point)) (stream : List Nat),
      stream.length % alignment = 0 →
      saveBinLoopV0 trim rotate alignment items stream =
        stream ++
          ((items.filter
              (fun bp => itemFootprint bp.1 trim rotate ≤ alignment)).map
            (fun bp => alignStream (encodeItemV0 trim rotate bp) alignment)).flatten := by
  refine ⟨encodeItemV0_length trim rotate, ?_⟩
  intro items
  induction items with
  | nil =>
      intro stream hs
      simp [saveBinLoopV0]
  | cons bp rest ih =>
      intro stream hs
      by_cases hbig : alignment < itemFootprint bp.1 trim rotate
      · rw [saveBinLoopV0, if_pos hbig, ih stream hs,
            List.filter_cons_of_neg (by simpa using hbig)]
      · rw [saveBinLoopV0, if_neg hbig,
            ih (alignStream (stream ++ encodeItemV0 trim rotate bp) alignment)
              (alignStream_length_mod _ alignment ha),
            alignStream_append stream (encodeItemV0 trim rotate bp) alignment ha hs,
            List.filter_cons_of_pos (by simpa using hbig),
            List.map_cons, List.flatten_cons, List.append_assoc]

theorem saveBin_skips_oversized_witness :
    (encodeItemV0 false false
        (bmLong, { x := 0, y := 0, dupID := -1, rot := false })).length =
      itemFootprint bmLong false false ∧
    saveBinLoopV0 false false 16
        [(bmLong, { x := 0, y := 0, dupID := -1, rot := false }),
         (bmA, { x := 3, y := 0, dupID := -1, rot := false })] [] =
      [] ++
        (([(bmLong, ({ x := 0, y := 0, dupID := -1, rot := false } : Point)),
           (bmA, ({ x := 3, y := 0, dupID := -1, rot := false } : Point))].filter
            (fun bp => itemFootprint bp.1 false false ≤ 16)).map
          (fun bp => alignStream (encodeItemV0 false false bp) 16)).flatten :=
  ⟨(saveBin_skips_oversized false false 16 (by decide)).1
     (bmLong, { x := 0, y := 0, dupID := -1, rot := false }),
   (saveBin_skips_oversized false false 16 (by decide)).2
     [(bmLong, { x := 0, y := 0, dupID := -1, rot := false }),
      (bmA, { x := 3, y := 0, dupID := -1, rot := false })] [] (by decide)⟩

/-! ### The name sort of the binary encoder -/

theorem map_getD_range (l : List α) (d : α) :
    (List.range l.length).map (fun i => l.getD i d) = l := by
  apply List.ext_getElem
  · simp
  · intro i h1 h2
    simp only [List.getElem_map, List.getElem_range,
      List.getD_eq_getElem?_getD, List.getElem?_eq_getElem h2, Option.getD_some]

/-! ### Claim theorems: the name sort -/

/-- C6 (counterexample): `sort_permutation` uses `std::sort`, which
does not promise stability; for two distinct records sharing one name,
the transposition `[1, 0]` is a conforming sort output, yet applying it
reorders the equal-named records — "equal-named records keep their
original relative order" fails. -/
theorem saveBin_sort_not_stable :
    IsSortPerm [bmN1, bmN2] [1, 0] ∧
    applyPerm default [1, 0] [bmN1, bmN2] ≠ [bmN1, bmN2] := by
  refine ⟨⟨by decide, by decide⟩, by decide⟩

/-- C6 (amended): every conforming `sort_permutation` output `p`, when
applied by `SaveBin`, yields the vectors read through one and the same
permutation: the names come out ascending (lexicographically,
non-strictly), the multiset of records is unchanged, and the
bitmap/point pairing is preserved because the identical `p` is applied
to both vectors.  Stability for equal names is *not* guaranteed. -/
theorem saveBin_sort_correct (bms : List Bitmap) (pts : List Point)
    (p : List Nat) (hp : IsSortPerm bms p) (hlen : bms.length = pts.length) :
    List.Sorted (fun a b : String => a ≤ b) ((applyPerm default p bms).map Bitmap.name) ∧
    (applyPerm default p bms).Perm bms ∧
    List.zip (applyPerm default p bms) (applyPerm default p pts) =
      applyPerm (default, default) p (List.zip bms pts) := by
  obtain ⟨hperm, hsorted⟩ := hp
  refine ⟨?_, ?_, zip_applyPerm p bms pts default default hlen⟩
  · unfold applyPerm
    rw [List.map_map]
    apply List.Pairwise.map _ ?_ hsorted
    intro i j hij
    simp only [nameLt, decide_eq_false_iff_not] at hij
    have hnot : ¬ (bms.getD j default).name < (bms.getD i default).name :=
      fun hc => hij (String.lt_iff_toList_lt.mp hc)
    exact not_lt.mp hnot
  · unfold applyPerm
    have h1 : (List.map (fun i => bms.getD i default) p).Perm
        (List.map (fun i => bms.getD i default) (List.range bms.length)) :=
      hperm.map _
    rw [map_getD_range bms default] at h1
    exact h1

theorem saveBin_sort_correct_witness :
    List.Sorted (fun a b : String => a ≤ b)
        ((applyPerm default [1, 0] [bmC, bmA]).map Bitmap.name) ∧
    (applyPerm default [1, 0] [bmC, bmA]).Perm [bmC, bmA] ∧
    List.zip (applyPerm default [1, 0] [bmC, bmA])
        (applyPerm default [1, 0]
          ([{ x := 3, y := 0, dupID := -1, rot := false },
            { x := 0, y := 0, dupID := -1, rot := false }] : List Point)) =
      applyPerm (default, default) [1, 0]
        (List.zip [bmC, bmA]
          ([{ x := 3, y := 0, dupID := -1, rot := false },
            { x := 0, y := 0, dupID := -1, rot := false }] : List Point)) :=
  saveBin_sort_correct [bmC, bmA]
    [{ x := 3, y := 0, dupID := -1, rot := false },
     { x := 0, y := 0, dupID := -1, rot := false }]
    [1, 0] ⟨by decide, by decide⟩ (by decide)

/-! ### Stability of dupLookup registrations -/

theorem packLoop_append (insert : β → Int → Int → Bool → β × Rect)
    (equals : Bitmap → Bitmap → Bool) (pad : Int) (unique rotate : Bool) :
    ∀ (xs ys : List Bitmap) (st : PackState β),
      packLoop insert equals pad unique rotate st (xs ++ ys) =
        (if (packLoop insert equals pad unique rotate st xs).2 = []
         then packLoop insert equals pad unique rotate
                (packLoop insert equals pad unique rotate st xs).1 ys
         else ((packLoop insert equals pad unique rotate st xs).1,
               (packLoop insert equals pad unique rotate st xs).2 ++ ys)) := by
  intro xs
  induction xs with
  | nil =>
      intro ys st
      simp [packLoop_nil]
  | cons b rest ih =>
      intro ys st
      cases hd : dupHit equals unique st b with
      | some di =>
          rw [List.cons_append, packLoop_cons_dup (rest ++ ys) hd,
              packLoop_cons_dup rest hd]
          exact ih ys (dupAppend st b di)
      | none =>
          cases hres : insert st.bin (b.width + pad) (b.height + pad) rotate with
          | mk bin2 rect =>
            by_cases hz : rect.width = 0 ∨ rect.height = 0
            · rw [List.cons_append, packLoop_cons_fail (rest ++ ys) hd hres hz,
                  packLoop_cons_fail rest hd hres hz]
              simp
            · rw [List.cons_append, packLoop_cons_place (rest ++ ys) hd hres hz,
                  packLoop_cons_place rest hd hres hz]
              exact ih ys (placeAppend st b unique rotate pad bin2 rect)

theorem packLoop_hashInv (insert : β → Int → Int → Bool → β × Rect)
    (equals : Bitmap → Bitmap → Bool) (pad : Int) (rotate : Bool)
    (univ : List Bitmap) (hnc : NoCollision equals univ) :
    ∀ (input : List Bitmap) (st : PackState β),
      (∀ x ∈ input, x ∈ univ) → HashInv univ st →
      HashInv univ (packLoop insert equals pad true rotate st input).1 ∧
      (∀ h i, lookupHash st.dupLookup h = some i →
        lookupHash (packLoop insert equals pad true rotate st input).1.dupLookup h =
          some i) := by
  intro input
  induction input with
  | nil => intro st hsub hinv; exact ⟨hinv, fun h i hl => hl⟩
  | cons b rest ih =>
      intro st hsub hinv
      have hbu : b ∈ univ := hsub b (List.mem_cons_self b rest)
      have hsubr : ∀ x ∈ rest, x ∈ univ := fun x hx => hsub x (List.mem_cons_of_mem b hx)
      obtain ⟨hlen, hbind⟩ := hinv
      cases hd : dupHit equals true st b with
      | some di =>
          rw [packLoop_cons_dup rest hd]
          have hinv2 : HashInv univ (dupAppend st b di) := by
            constructor
            · simp [dupAppend, hlen]
            · intro h i hl
              obtain ⟨h1, h2, h3⟩ := hbind h i hl
              refine ⟨?_, ?_, ?_⟩
              · simp only [dupAppend, List.length_append, List.length_singleton]
                omega
              · simp only [dupAppend]
                rw [List.getD_append _ _ _ _ h1]
                exact h2
              · simp only [dupAppend]
                rw [List.getD_append _ _ _ _ h1]
                exact h3
          exact ih (dupAppend st b di) hsubr hinv2
      | none =>
          cases hres : insert st.bin (b.width + pad) (b.height + pad) rotate with
          | mk bin2 rect =>
            by_cases hz : rect.width = 0 ∨ rect.height = 0
            · rw [packLoop_cons_fail rest hd hres hz]
              exact ⟨⟨hlen, hbind⟩, fun h i hl => hl⟩
            · rw [packLoop_cons_place rest hd hres hz]
              have hkey : lookupHash st.dupLookup b.hashValue = none := by
                cases hl : lookupHash st.dupLookup b.hashValue with
                | none => rfl
                | some dj =>
                    exfalso
                    obtain ⟨hjlt, hjh, hjmem⟩ := hbind _ _ hl
                    have heq : equals b (st.bitmaps.getD dj default) = true :=
                      hnc b hbu _ hjmem hjh.symm
                    simp [dupHit, hl] at hd
                    rw [List.getD_eq_getElem?_getD] at heq
                    simp [heq] at hd
              have hinv2 : HashInv univ (placeAppend st b true rotate pad bin2 rect) := by
                constructor
                · simp [placeAppend, hlen]
                · intro h i hl
                  replace hl : lookupHash
                      (assignHash st.dupLookup b.hashValue st.points.length) h =
                        some i := by
                    simpa [placeAppend] using hl
                  by_cases hh : h = b.hashValue
                  · subst hh
                    rw [lookupHash_assignHash_self] at hl
                    obtain rfl := Option.some.inj hl
                    refine ⟨?_, ?_, ?_⟩
                    · simp only [placeAppend, List.length_append, List.length_singleton]
                      omega
                    · simp only [placeAppend]
                      rw [hlen, getD_concat_self]
                    · simp only [placeAppend]
                      rw [hlen, getD_concat_self]
                      exact hbu
                  · rw [lookupHash_assignHash_ne _ _ hh] at hl
                    obtain ⟨h1, h2, h3⟩ := hbind h i hl
                    refine ⟨?_, ?_, ?_⟩
                    · simp only [placeAppend, List.length_append, List.length_singleton]
                      omega
                    · simp only [placeAppend]
                      rw [List.getD_append _ _ _ _ h1]
                      exact h2
                    · simp only [placeAppend]
                      rw [List.getD_append _ _ _ _ h1]
                      exact h3
              refine ⟨(ih _ hsubr hinv2).1, ?_⟩
              intro h i hl
              have hne : h ≠ b.hashValue := by
                intro hc
                subst hc
                rw [hkey] at hl
                exact Option.noConfusion hl
              have hl2 : lookupHash
                  (placeAppend st b true rotate pad bin2 rect).dupLookup h = some i := by
                show lookupHash
                  (assignHash st.dupLookup b.hashValue st.points.length) h = some i
                rw [lookupHash_assignHash_ne _ _ hne]
                exact hl
              exact (ih _ hsubr hinv2).2 h i hl2

/-! ### Claim theorems: dupLookup registration -/

/-- C9 (counterexample): `dupLookup[hash] = index` is insert-or-assign,
so a later bitmap that collides on the hash but differs in pixels
*remaps* the hash.  Concretely: packing `bmA` alone registers
`10 ↦ 0`; continuing the very same run with `bmX` (hash 10, different
pixels) leaves `10 ↦ 1` — the binding moved to the later record. -/
theorem dup_registration_remapped :
    lookupHash (packLoop scriptedInsert bitmapEq 0 true true
        (freshState [rectA, rectC]) [bmA]).1.dupLookup 10 = some 0 ∧
    lookupHash (packLoop scriptedInsert bitmapEq 0 true true
        (freshState [rectA, rectC]) ([bmA] ++ [bmX])).1.dupLookup 10 = some 1 ∧
    (1 : Nat) ≠ 0 := by
  exact ⟨by decide, by decide, by decide⟩

/-- C9 (amended): with `unique` on and *no hash collisions* among the
bitmaps involved (equal hash implies `Equals`), the mapping is
first-writer-wins: any binding `hash ↦ index` present after packing a
first batch of the input is still present unchanged after packing the
rest, so every later duplicate resolves to the first registered record.
With a genuine collision the code reassigns the hash to the newly
placed record's index. -/
theorem dup_registration_stable {β : Type}
    (insert : β → Int → Int → Bool → β × Rect)
    (equals : Bitmap → Bitmap → Bool) (pad : Int) (rotate : Bool)
    (univ : List Bitmap) (hnc : NoCollision equals univ)
    (xs ys : List Bitmap) (hxs : ∀ x ∈ xs, x ∈ univ) (hys : ∀ x ∈ ys, x ∈ univ)
    (st0 : PackState β) (hinv : HashInv univ st0)
    (st1 : PackState β) (rem : List Bitmap)
    (hmid : packLoop insert equals pad true rotate st0 xs = (st1, rem))
    (h i : Nat) (hbind : lookupHash st1.dupLookup h = some i) :
    lookupHash
        (packLoop insert equals pad true rotate st0 (xs ++ ys)).1.dupLookup h =
      some i := by
  have hfirst := packLoop_hashInv insert equals pad rotate univ hnc xs st0 hxs hinv
  rw [packLoop_append insert equals pad true rotate xs ys st0, hmid]
  by_cases hrem : rem = []
  · rw [hmid] at hfirst
    simp only [hrem, if_pos rfl]
    exact (packLoop_hashInv insert equals pad rotate univ hnc ys st1 hys
      hfirst.1).2 h i hbind
  · rw [if_neg (by simpa using hrem)]
    exact hbind

theorem dup_registration_stable_witness :
    lookupHash (packLoop scriptedInsert bitmapEq 0 true true
        (freshState [rectA, rectC]) ([bmA] ++ [bmB, bmC])).1.dupLookup 10 =
      some 0 :=
  dup_registration_stable scriptedInsert bitmapEq 0 true [bmA, bmB, bmC]
    (by unfold NoCollision; decide) [bmA] [bmB, bmC] (by decide) (by decide)
    (freshState [rectA, rectC])
    ⟨rfl, by intro h i hl; simp [freshState, lookupHash] at hl⟩
    stA [] (by decide) 10 0 (by decide)

end Crunch
